import Mathlib

/-!
# Verification of `aep` (ATT&CK simulator) against its specification

Shallow embedding of `src/aep/tools/generate.py` (the CLI tool: bundle
pre-processing in `main`, `stage_technique`, `stages_table`) together with a
spec-modelled forward-chaining engine (`simulate` lives in
`aep/tools/libs/libgenerate.py`, which is not part of the sources here).

Python dictionaries with optional keys are embedded as structures with
`Option` fields; a `d[k]` subscript on a possibly-missing key becomes a
fallible (`Option`-valued) access, while `d.get(k, default)` becomes
`Option.getD`.  Python `set`/`list` values are embedded as `List String`
with explicit deduplication where the code relies on set semantics.
Printing is embedded as a trace of `OutLine` events, one constructor per
`print` site.
-/

/-- Python `s.startswith(pre)`: embedded on the character data of the
strings so that it is kernel-computable. -/
def pyStartsWith (s pre : String) : Bool :=
  pre.data.isPrefixOf s.data

/-- Python `s.endswith(post)`: embedded on the character data of the
strings so that it is kernel-computable. -/
def pyEndsWith (s post : String) : Bool :=
  post.data.isSuffixOf s.data

/-- A technique record of the catalog (one value of the `techniques` dict).
`name` is accessed with `technique["name"]` (required by the code that the
claims touch); `tactic` is accessed with `technique.get("tactic", [])`
(optional, defaulting to the empty list); `provides` and `requires` are
optional keys: `provides` is accessed with the fallible subscript
`technique["provides"]` in `stage_technique`. -/
structure TechRecord where
  name : String
  tactic : List String
  requires : Option (List String)
  provides : Option (List String)
  deriving Repr, DecidableEq

/-- The technique catalog: a read-only mapping from technique id to record.
A Python `catalog[tech_id]` lookup that may raise `KeyError` is `c id`
returning `none`. -/
def Catalog : Type := String → Option TechRecord

/-- One stage of a simulation (`AttackStage` in `aep.tools.libs.types`):
the technique ids fired during the stage, the condition pool as it stood
before the stage, and the promises newly added by the stage. -/
structure AttackStage where
  techniques : List String
  last_stage_sum_provides : List String
  new_provides : List String
  deriving Repr, DecidableEq

/-- The engine output (`Simulation` in `aep.tools.libs.types`): ordered
stage list, final condition pool (`provided`), and objective subset. -/
structure Simulation where
  stages : List AttackStage
  provided : List String
  objectives : List String
  deriving Repr, DecidableEq

/-- Python `stage_technique(technique, last_stage_sum_provides,
show_tactics)` from `generate.py`.  Returns `none` exactly when the Python code raises
`KeyError`, i.e. when the record has no `provides` key (the code subscripts
`technique["provides"]` directly, unlike `technique.get("tactic", [])`). -/
def stage_technique (technique : TechRecord)
    (last_stage_sum_provides : List String) (show_tactics : Bool) :
    Option String :=
  let description := technique.name
  let tactics := technique.tactic
  let description :=
    if show_tactics ∧ tactics ≠ [] then
      description ++ " (" ++ String.intercalate "," tactics ++ ")"
    else description
  match technique.provides with
  | none => none
  | some provs =>
      if provs.all (fun p => decide (p ∈ last_stage_sum_provides)) then
        some (description ++ " [*]")
      else
        some description

/-- The base description built by `stage_technique` before the `" [*]"`
marker decision: the technique name, with the comma-separated tactic list in
parentheses when `show_tactics` is set and the list is non-empty. -/
def baseDescription (technique : TechRecord) (show_tactics : Bool) : String :=
  if show_tactics ∧ technique.tactic ≠ [] then
    technique.name ++ " (" ++ String.intercalate "," technique.tactic ++ ")"
  else technique.name

/-- Python `sorted(s)` on a set of strings: deduplicate, then sort. -/
def pySorted (l : List String) : List String :=
  l.dedup.insertionSort (fun a b => a ≤ b)

/-- One row of the table built by `stages_table` (the dict appended to
`table`): the 1-based stage index, the joined sorted technique
descriptions, and the two optional columns, present exactly when the
corresponding display toggle is set. -/
structure Row where
  stage : Nat
  techniques : String
  new_promises : Option String
  tactics : Option String
  deriving Repr, DecidableEq

/-- The inner loop of `stages_table` over `stage.techniques`, threading the
local accumulators `tech_descriptions` and `stage_tactics` (Python sets,
embedded as lists of added elements; the final row deduplicates and sorts)
and the `stage` object itself, so that a statement mutating `stage` would
show up in the returned stage.  Returns `none` when the Python loop raises:
a non-shadow `tech_id` absent from the catalog (`techniques[tech_id]`), or
a record without a `provides` key (inside `stage_technique`). -/
def stageCellRun (techniques : Catalog) (show_tactics : Bool) :
    List String → List String × List String → AttackStage →
    Option (List String × List String) × AttackStage
  | [], acc, stage => (some acc, stage)
  | tech_id :: rest, (descs, tacs), stage =>
    if pyStartsWith tech_id "_" then
      stageCellRun techniques show_tactics rest (descs, tacs) stage
    else
      match techniques tech_id with
      | none => (none, stage)
      | some technique =>
          match stage_technique technique stage.last_stage_sum_provides
              show_tactics with
          | none => (none, stage)
          | some d =>
              stageCellRun techniques show_tactics rest
                (descs ++ [d], tacs ++ technique.tactic) stage

/-- Build the row dict appended to `table` for one stage. -/
def mkRow (idx : Nat) (stage : AttackStage)
    (tech_descriptions stage_tactics : List String)
    (show_promises show_tactics : Bool) : Row :=
  { stage := idx + 1
    techniques := String.intercalate "\n" (pySorted tech_descriptions)
    new_promises :=
      if show_promises then
        some (String.intercalate "\n" (pySorted stage.new_provides))
      else none
    tactics :=
      if show_tactics then
        some (String.intercalate "\n" (pySorted stage_tactics))
      else none }

/-- The outer loop of `stages_table` over `enumerate(sim.stages)`,
threading each stage through the inner loop and returning the (possibly
updated) stage list alongside the built table, so that mutation of the
consumed `Simulation` would be visible in the second component. -/
def stagesRowsRun (techniques : Catalog) (show_promises show_tactics : Bool) :
    Nat → List AttackStage → Option (List Row) × List AttackStage
  | _, [] => (some [], [])
  | idx, stage :: rest =>
    match stageCellRun techniques show_tactics stage.techniques ([], []) stage with
    | (none, stage') => (none, stage' :: rest)
    | (some (descs, tacs), stage') =>
        match stagesRowsRun techniques show_promises show_tactics
            (idx + 1) rest with
        | (none, rest') => (none, stage' :: rest')
        | (some rows, rest') =>
            (some (mkRow idx stage' descs tacs show_promises show_tactics
              :: rows), stage' :: rest')

/-- Python `stages_table(sim, techniques, show_promises, show_tactics)`
with the consumed `Simulation` threaded through (state-passing embedding): first
component is the table handed to `tabulate.tabulate` (an external
formatting library, outside the embedding boundary), second component is
the `Simulation` as it stands after the call. -/
def stagesTableRun (sim : Simulation) (techniques : Catalog)
    (show_promises show_tactics : Bool) :
    Option (List Row) × Simulation :=
  let r := stagesRowsRun techniques show_promises show_tactics 0 sim.stages
  (r.1, { sim with stages := r.2 })

/-- The function `stages_table` as a pure map of its inputs: the list of
row dicts built by the loop (`none` when the Python code raises). -/
def stages_table (sim : Simulation) (techniques : Catalog)
    (show_promises show_tactics : Bool) : Option (List Row) :=
  (stagesTableRun sim techniques show_promises show_tactics).1

/-- One print event of `generate.py`'s `main`, one constructor per `print`
site, carrying the data interpolated into the printed line:
`removedNops` is `print(f"Removed {len(removed)} NOP techniques: ...")`,
`excludeWarning` is the `print` in the `except ValueError` arm,
`tableOut` is `print(stages_table(...))` (rendered by the external
`tabulate` library), `noteNoNewPromises` is the fixed
`"[*] Technique does not provide any new promises"` line,
`objectivesReached` is the `"The following objectives where reached:"`
line, `successLine` is the line beginning
`"SUCCESS: Attack chain exited with end condition"` and `failLine` the line
beginning `"FAIL: incomplete attack chain"`. -/
inductive OutLine where
  | removedNops (count : Nat) (removed : List String)
  | excludeWarning (entry : String)
  | tableOut (rows : List Row)
  | noteNoNewPromises
  | objectivesReached (objectives : List String)
  | successLine (end_condition : String)
  | failLine (end_condition : String)
  deriving Repr, DecidableEq

/-- The NOP-removal loop of `main`: iterate over a fixed copy
(`tech_bundle[:]`) of the bundle, and for each element found in `nops`,
append it to `removed` and delete its first occurrence from the live
bundle (`tech_bundle.remove(tat)`).  The accumulator is the pair
`(removed, tech_bundle)`. -/
def nopLoop (nops : List String) :
    List String → List String × List String → List String × List String
  | [], acc => acc
  | tat :: rest, (removed, bundle) =>
    if tat ∈ nops then
      nopLoop nops rest (removed ++ [tat], bundle.erase tat)
    else
      nopLoop nops rest (removed, bundle)

/-- The exclude loop of `main`: for each entry of
`args.exclude_techniques`, `tech_bundle.remove(exclude)` deletes the first
occurrence when present; when absent the `ValueError` is caught and a
warning is printed, the bundle staying as it was.  Returns the final
bundle and the warnings printed, in order. -/
def processExcludes : List String → List String → List String × List OutLine
  | [], bundle => (bundle, [])
  | e :: rest, bundle =>
    if e ∈ bundle then
      processExcludes rest (bundle.erase e)
    else
      let r := processExcludes rest bundle
      (r.1, OutLine.excludeWarning e :: r.2)

/-- The bundle pipeline of `main` between `read_data` and the `simulate`
call: NOP removal first, then `tech_bundle.extend(args.include_techniques)`
when that list is non-empty, then the exclude loop.  `nops` is the result
of the external `nop_techniques` collaborator.  Returns the bundle passed
to `simulate` and the lines printed along the way. -/
def mainBundle (nops tech_bundle include_techniques exclude_techniques :
    List String) : List String × List OutLine :=
  let r1 := nopLoop nops tech_bundle ([], tech_bundle)
  let b2 := if include_techniques ≠ [] then r1.2 ++ include_techniques
            else r1.2
  let r2 := processExcludes exclude_techniques b2
  (r2.1,
    OutLine.removedNops r1.1.length (r1.1.insertionSort (fun a b => a ≤ b))
      :: r2.2)

/-- The tail of `main` after `simulate` returns: print the rendered stages
table, print the fixed `"[*] ..."` note, print the reached objectives when
that set is non-empty, then print exactly one of the success / failure
lines according to `args.end_condition in sim.provided`.  Returns `none`
when `stages_table` raises, aborting `main` before these prints. -/
def mainTail (sim : Simulation) (techniques : Catalog)
    (end_condition : String) (show_promises show_tactics : Bool) :
    Option (List OutLine) :=
  match stages_table sim techniques show_promises show_tactics with
  | none => none
  | some rows =>
      some ([OutLine.tableOut rows, OutLine.noteNoNewPromises]
        ++ (if sim.objectives ≠ [] then
              [OutLine.objectivesReached (pySorted sim.objectives)]
            else [])
        ++ (if end_condition ∈ sim.provided then
              [OutLine.successLine end_condition]
            else [OutLine.failLine end_condition]))

/-- The values argparse hands to `command_line_arguments` before the bundle
check: `--technique-bundle` is `None` when absent (`Option.none` here; a
supplied path is a truthy `Path`), list-valued options default to the empty
list, and `--end-condition` already carries its argparse default
`"objective_exfiltration"`. -/
structure RawArgs where
  technique_bundle : Option String
  seeds : List String
  end_condition : String
  include_techniques : List String
  exclude_techniques : List String
  show_promises : Bool
  show_tactics : Bool
  nop_empty_provides : Bool
  system_conditions : List String
  deriving Repr, DecidableEq

/-- The validated arguments returned by `command_line_arguments`. -/
structure Args where
  technique_bundle : String
  seeds : List String
  end_condition : String
  include_techniques : List String
  exclude_techniques : List String
  show_promises : Bool
  show_tactics : Bool
  nop_empty_provides : Bool
  system_conditions : List String
  deriving Repr, DecidableEq

/-- Python `command_line_arguments` from `generate.py`: after parsing, if
`args.technique_bundle` is falsy (absent), write
`"--technique-bundle must be specified\n"` to stderr and `sys.exit(1)`;
the error carries the stderr text and the exit status. -/
def command_line_arguments (raw : RawArgs) : Except (String × Nat) Args :=
  match raw.technique_bundle with
  | none => Except.error ("--technique-bundle must be specified\n", 1)
  | some p =>
      Except.ok
        { technique_bundle := p
          seeds := raw.seeds
          end_condition := raw.end_condition
          include_techniques := raw.include_techniques
          exclude_techniques := raw.exclude_techniques
          show_promises := raw.show_promises
          show_tactics := raw.show_tactics
          nop_empty_provides := raw.nop_empty_provides
          system_conditions := raw.system_conditions }

/-- The coarse event sequence of `main`: argument validation happens first;
on its failure, stderr is written and the process exits with the carried
status, so neither `config.read_data` (loading technique and bundle data)
nor `simulate` is ever reached.  On success `main` proceeds to read the
data and run the simulation. -/
inductive MainStep where
  | stderrWrite (msg : String)
  | exitCode (status : Nat)
  | readData
  | simulateCall
  deriving Repr, DecidableEq

/-- The order of effects in `main`, driven by `command_line_arguments`. -/
def mainSteps (raw : RawArgs) : List MainStep :=
  match command_line_arguments raw with
  | Except.error (msg, status) =>
      [MainStep.stderrWrite msg, MainStep.exitCode status]
  | Except.ok _ => [MainStep.readData, MainStep.simulateCall]

/-- Requirements of a catalog technique, an absent `requires` key being the
empty (vacuously satisfied) requirement set. -/
def techRequires (c : Catalog) (t : String) : List String :=
  ((c t).map (fun r => r.requires.getD [])).getD []

/-- Provided promises of a catalog technique, an absent `provides` key
being the empty effect set. -/
def techProvides (c : Catalog) (t : String) : List String :=
  ((c t).map (fun r => r.provides.getD [])).getD []

/-- Modelled from the spec: the staged fixpoint loop of `simulate`
(`aep/tools/libs/libgenerate.py`, not among the sources here), following
§4.1 step 2 of the specification.  `remaining` is the bundle (distinct
ids, stable order) minus the already-fired techniques; `pool` is the
condition pool P.  Each round fires every remaining technique whose
requirements are contained in P (step 2a), stops when none fires
(step 2b), records the stage with its pre-stage pool and the newly
provided promises (steps 2c–2d), and recurses on the unfired rest with
the grown pool (step 2e).  Returns the stage list and the final pool. -/
def simLoop (c : Catalog) (remaining pool : List String) :
    List AttackStage × List String :=
  let fires := fun t => (techRequires c t).all (fun p => decide (p ∈ pool))
  let fire := remaining.filter fires
  if h : fire = [] then ([], pool)
  else
    let rest := remaining.filter (fun t => !(fires t))
    let new_provides :=
      ((fire.flatMap (techProvides c)).dedup).filter
        (fun p => !(decide (p ∈ pool)))
    let r := simLoop c rest (pool ++ new_provides)
    (⟨fire, pool, new_provides⟩ :: r.1, r.2)
  termination_by remaining.length
  decreasing_by
    have key : ∀ (l : List String) (q : String → Bool), l.filter q ≠ [] →
        (l.filter (fun a => !(q a))).length < l.length := by
      intro l q
      induction l with
      | nil => intro hne; exact absurd rfl hne
      | cons a t ih =>
          intro hne
          by_cases hq : q a = true
          · have h1 : (t.filter (fun a => !(q a))).length ≤ t.length :=
              List.length_filter_le _ _
            simpa [List.filter_cons, hq] using Nat.lt_succ_of_le h1
          · have hq2 : q a = false := by
              cases hqa : q a
              · rfl
              · exact absurd hqa hq
            have h2 : t.filter q ≠ [] := by
              simpa [List.filter_cons, hq2] using hne
            simpa [List.filter_cons, hq2] using Nat.succ_lt_succ (ih h2)
    exact key _ _ h

/-- Modelled from the spec: `simulate(seeds, technique_bundle,
technique_catalog, system_conditions)` of `aep/tools/libs/libgenerate.py`
(not among the sources here), following §4.1 of the specification.  A
bundle id absent from the catalog is a fatal configuration error (`none`, never a truncated result).  Otherwise the pool is initialized to
seeds ∪ system_conditions, the fixpoint loop runs over the distinct bundle
ids, and the result carries the stages, the final pool, and the subset of
the final pool whose ids start with `"objective_"`. -/
def simulate (seeds technique_bundle : List String)
    (technique_catalog : Catalog) (system_conditions : List String) :
    Option Simulation :=
  if technique_bundle.all (fun t => (technique_catalog t).isSome) then
    let r := simLoop technique_catalog technique_bundle.dedup
      ((seeds ++ system_conditions).dedup)
    some ⟨r.1, r.2, r.2.filter (fun p => pyStartsWith p "objective_")⟩
  else none

/-- Drop the shadow technique ids (leading underscore) from a stage's fired
set, leaving its pools untouched. -/
def dropShadow (s : AttackStage) : AttackStage :=
  { s with techniques := s.techniques.filter fun id => !(pyStartsWith id "_") }

/-- A small concrete catalog used to instantiate the theorems: an
unconditional technique, a technique unlocked by it, and a shadow
technique. -/
def exampleCatalog : Catalog := fun id =>
  if id = "T1" then some ⟨"Tech One", ["ta"], some [], some ["a"]⟩
  else if id = "T2" then
    some ⟨"Tech Two", [], some ["a"], some ["objective_exfiltration"]⟩
  else if id = "_sh" then some ⟨"Shadow", [], some [], some ["s"]⟩
  else none

/-- The same catalog with the shadow technique record removed; it agrees
with `exampleCatalog` on every non-shadow id. -/
def exampleCatalogB : Catalog := fun id =>
  if id = "_sh" then none else exampleCatalog id

/-- A one-stage simulation in which an ordinary and a shadow technique
fired together. -/
def exampleSim : Simulation :=
  ⟨[⟨["T1", "_sh"], [], ["a", "s"]⟩], ["a", "s"], []⟩

/-- A catalog whose single technique fires unconditionally but has no
`provides` key — a record the catalog interface admits. -/
def noProvidesCatalog : Catalog := fun id =>
  if id = "T" then some ⟨"N", [], some [], none⟩ else none

/-- The simulation `simulate` produces from `noProvidesCatalog` with
bundle `["T"]` and system condition `"x"`: the technique fires once and
the final pool is `["x"]`. -/
def noProvidesSim : Simulation :=
  ⟨[⟨["T"], ["x"], []⟩], ["x"], []⟩


/-! ## Helper lemmas -/

/-- Filtering away the elements satisfying `p` shrinks a list strictly when
some element satisfies `p`. -/
theorem filter_not_length_lt {α : Type} {p : α → Bool} :
    ∀ {l : List α}, l.filter p ≠ [] →
      (l.filter (fun a => !(p a))).length < l.length := by
  intro l
  induction l with
  | nil => intro h; exact absurd rfl h
  | cons a l ih =>
      intro h
      by_cases hp : p a = true
      · have h1 : (l.filter (fun a => !(p a))).length ≤ l.length :=
          List.length_filter_le _ _
        simpa [List.filter_cons, hp] using Nat.lt_succ_of_le h1
      · have hp2 : p a = false := by
          cases hpa : p a
          · rfl
          · exact absurd hpa hp
        have h2 : l.filter p ≠ [] := by
          simpa [List.filter_cons, hp2] using h
        simpa [List.filter_cons, hp2] using Nat.succ_lt_succ (ih h2)

/-- The inner `stages_table` loop never writes the stage it reads. -/
theorem stageCellRun_stage_eq (c : Catalog) (st : Bool) :
    ∀ (ids : List String) (acc : List String × List String)
      (stage : AttackStage),
      (stageCellRun c st ids acc stage).2 = stage := by
  intro ids
  induction ids with
  | nil => intro acc stage; rfl
  | cons tech_id rest ih =>
      intro acc stage
      obtain ⟨descs, tacs⟩ := acc
      by_cases h : pyStartsWith tech_id "_"
      · simpa [stageCellRun, h] using ih _ _
      · cases hc : c tech_id with
        | none => simp [stageCellRun, h, hc]
        | some technique =>
            cases hs : stage_technique technique stage.last_stage_sum_provides
                st with
            | none => simp [stageCellRun, h, hc, hs]
            | some d => simpa [stageCellRun, h, hc, hs] using ih _ _

/-- The outer `stages_table` loop returns the stage list it was given. -/
theorem stagesRowsRun_stages_eq (c : Catalog) (sp st : Bool) :
    ∀ (idx : Nat) (stages : List AttackStage),
      (stagesRowsRun c sp st idx stages).2 = stages := by
  intro idx stages
  induction stages generalizing idx with
  | nil => rfl
  | cons stage rest ih =>
      have hcell := stageCellRun_stage_eq c st stage.techniques ([], []) stage
      cases hc : stageCellRun c st stage.techniques ([], []) stage with
      | mk res stage' =>
          have hstage : stage' = stage := by
            rw [hc] at hcell
            exact hcell
          cases res with
          | none => simp [stagesRowsRun, hc, hstage]
          | some acc =>
              obtain ⟨descs, tacs⟩ := acc
              cases hr : stagesRowsRun c sp st (idx + 1) rest with
              | mk rows rest' =>
                  have hrest : rest' = rest := by
                    have := ih (idx + 1)
                    rw [hr] at this
                    exact this
                  cases rows with
                  | none => simp [stagesRowsRun, hc, hr, hstage, hrest]
                  | some rs => simp [stagesRowsRun, hc, hr, hstage, hrest]

/-- The inner `stages_table` loop only consults the catalog at non-shadow
ids: catalogs agreeing there are interchangeable. -/
theorem stageCellRun_congr (c1 c2 : Catalog) (st : Bool)
    (h : ∀ id, pyStartsWith id "_" = false → c1 id = c2 id) :
    ∀ (ids : List String) (acc : List String × List String)
      (stage : AttackStage),
      stageCellRun c1 st ids acc stage = stageCellRun c2 st ids acc stage := by
  intro ids
  induction ids with
  | nil => intro acc stage; rfl
  | cons tech_id rest ih =>
      intro acc stage
      obtain ⟨descs, tacs⟩ := acc
      by_cases hu : pyStartsWith tech_id "_"
      · simpa [stageCellRun, hu] using ih _ _
      · have hid : c1 tech_id = c2 tech_id :=
          h tech_id (Bool.not_eq_true _ ▸ Bool.of_not_eq_true hu)
        cases hc : c2 tech_id with
        | none => simp [stageCellRun, hu, hid, hc]
        | some technique =>
            cases hs : stage_technique technique stage.last_stage_sum_provides
                st with
            | none => simp [stageCellRun, hu, hid, hc, hs]
            | some d => simpa [stageCellRun, hu, hid, hc, hs] using ih _ _

/-- Catalog congruence lifted to the outer `stages_table` loop. -/
theorem stagesRowsRun_congr (c1 c2 : Catalog) (sp st : Bool)
    (h : ∀ id, pyStartsWith id "_" = false → c1 id = c2 id) :
    ∀ (idx : Nat) (stages : List AttackStage),
      stagesRowsRun c1 sp st idx stages = stagesRowsRun c2 sp st idx stages := by
  intro idx stages
  induction stages generalizing idx with
  | nil => rfl
  | cons stage rest ih =>
      simp [stagesRowsRun, stageCellRun_congr c1 c2 st h, ih]

/-- The table part of the inner loop depends on the stage only through its
pre-stage pool. -/
theorem stageCellRun_fst_pool_congr (c : Catalog) (st : Bool)
    (s1 s2 : AttackStage)
    (hp : s1.last_stage_sum_provides = s2.last_stage_sum_provides) :
    ∀ (ids : List String) (acc : List String × List String),
      (stageCellRun c st ids acc s1).1 = (stageCellRun c st ids acc s2).1 := by
  intro ids
  induction ids with
  | nil => intro acc; rfl
  | cons tech_id rest ih =>
      intro acc
      obtain ⟨descs, tacs⟩ := acc
      by_cases hu : pyStartsWith tech_id "_"
      · simpa [stageCellRun, hu] using ih _
      · cases hc : c tech_id with
        | none => simp [stageCellRun, hu, hc]
        | some technique =>
            cases hs : stage_technique technique s2.last_stage_sum_provides
                st with
            | none => simp [stageCellRun, hu, hc, hp, hs]
            | some d => simpa [stageCellRun, hu, hc, hp, hs] using ih _

/-- Dropping the shadow ids from the iterated list leaves the inner loop's
table output unchanged. -/
theorem stageCellRun_fst_filter (c : Catalog) (st : Bool) (s : AttackStage) :
    ∀ (ids : List String) (acc : List String × List String),
      (stageCellRun c st (ids.filter fun id => !(pyStartsWith id "_")) acc
          s).1
        = (stageCellRun c st ids acc s).1 := by
  intro ids
  induction ids with
  | nil => intro acc; rfl
  | cons tech_id rest ih =>
      intro acc
      obtain ⟨descs, tacs⟩ := acc
      by_cases hu : pyStartsWith tech_id "_"
      · simpa [stageCellRun, List.filter_cons, hu] using ih _
      · cases hc : c tech_id with
        | none => simp [stageCellRun, List.filter_cons, hu, hc]
        | some technique =>
            cases hs : stage_technique technique s.last_stage_sum_provides
                st with
            | none => simp [stageCellRun, List.filter_cons, hu, hc, hs]
            | some d =>
                simpa [stageCellRun, List.filter_cons, hu, hc, hs] using ih _

/-- Dropping the shadow ids from every stage leaves the table unchanged. -/
theorem stagesRowsRun_fst_dropShadow (c : Catalog) (sp st : Bool) :
    ∀ (idx : Nat) (stages : List AttackStage),
      (stagesRowsRun c sp st idx (stages.map dropShadow)).1
        = (stagesRowsRun c sp st idx stages).1 := by
  intro idx stages
  induction stages generalizing idx with
  | nil => rfl
  | cons s rest ih =>
      have hpool : (dropShadow s).last_stage_sum_provides
          = s.last_stage_sum_provides := rfl
      have hcell : (stageCellRun c st (dropShadow s).techniques ([], [])
            (dropShadow s)).1
          = (stageCellRun c st s.techniques ([], []) s).1 := by
        rw [stageCellRun_fst_pool_congr c st (dropShadow s) s hpool]
        exact stageCellRun_fst_filter c st s s.techniques ([], [])
      have hA := stageCellRun_stage_eq c st s.techniques ([], []) s
      have hB := stageCellRun_stage_eq c st (dropShadow s).techniques ([], [])
        (dropShadow s)
      rcases hc : stageCellRun c st s.techniques ([], []) s with ⟨res, s1⟩
      rcases hc2 : stageCellRun c st (dropShadow s).techniques ([], [])
        (dropShadow s) with ⟨res2, s2⟩
      have h1 : s1 = s := by rw [hc] at hA; exact hA
      have h2 : s2 = dropShadow s := by rw [hc2] at hB; exact hB
      have hres : res2 = res := by rw [hc, hc2] at hcell; exact hcell
      cases res with
      | none => simp [stagesRowsRun, hc, hc2, hres]
      | some acc =>
          obtain ⟨descs, tacs⟩ := acc
          have hrow : mkRow idx s2 descs tacs sp st
              = mkRow idx s1 descs tacs sp st := by
            simp [mkRow, h1, h2, dropShadow]
          rcases hr1 : stagesRowsRun c sp st (idx + 1) (List.map dropShadow rest)
            with ⟨rowsL, restL⟩
          rcases hr2 : stagesRowsRun c sp st (idx + 1) rest with ⟨rowsR, restR⟩
          have hrows : rowsL = rowsR := by
            have := ih (idx + 1)
            rw [hr1, hr2] at this
            exact this
          cases rowsR with
          | none => simp [stagesRowsRun, hc, hc2, hres, hr1, hr2, hrows]
          | some rs =>
              simp [stagesRowsRun, hc, hc2, hres, hr1, hr2, hrows, hrow]

/-- Membership in the bundle survives the exclude loop for ids that appear
in no exclude entry. -/
theorem processExcludes_mem_of_not_mem (id : String) :
    ∀ (excl bundle : List String), id ∉ excl → id ∈ bundle →
      id ∈ (processExcludes excl bundle).1 := by
  intro excl
  induction excl with
  | nil => intro bundle _ hb; exact hb
  | cons e rest ih =>
      intro bundle hne hb
      have hid : id ≠ e := fun hEq => hne (hEq ▸ List.mem_cons_self e rest)
      have hrest : id ∉ rest := fun hr => hne (List.mem_cons_of_mem e hr)
      by_cases he : e ∈ bundle
      · have hb2 : id ∈ bundle.erase e := (List.mem_erase_of_ne hid).mpr hb
        simpa [processExcludes, he] using ih (bundle.erase e) hrest hb2
      · simpa [processExcludes, he] using ih bundle hrest hb

/-- The exclude loop does not change the multiplicity of an id that occurs
in no exclude entry. -/
theorem processExcludes_count_of_not_mem (e : String) :
    ∀ (excl bundle : List String), excl.count e = 0 →
      ((processExcludes excl bundle).1).count e = bundle.count e := by
  intro excl
  induction excl with
  | nil => intro bundle _; rfl
  | cons x rest ih =>
      intro bundle hc
      have hx : x ≠ e := by
        intro hEq
        rw [List.count_cons, hEq] at hc
        simp at hc
      have hrest : rest.count e = 0 := by
        rw [List.count_cons] at hc
        omega
      by_cases hxb : x ∈ bundle
      · have hcnt : (bundle.erase x).count e = bundle.count e :=
          List.count_erase_of_ne (fun hEq => hx hEq.symm) bundle
        simpa [processExcludes, hxb, hcnt] using ih (bundle.erase x) hrest
      · simpa [processExcludes, hxb] using ih bundle hrest

/-- An id occurring in exactly one exclude entry loses exactly one
occurrence across the exclude loop. -/
theorem processExcludes_count_of_one (e : String) :
    ∀ (excl bundle : List String), excl.count e = 1 → 1 ≤ bundle.count e →
      ((processExcludes excl bundle).1).count e = bundle.count e - 1 := by
  intro excl
  induction excl with
  | nil => intro bundle hc _; simp [List.count_nil] at hc
  | cons x rest ih =>
      intro bundle hc hb
      by_cases hx : x = e
      · subst hx
        have hrest : rest.count x = 0 := by
          rw [List.count_cons] at hc
          simp at hc
          omega
        have hxb : x ∈ bundle := List.count_pos_iff.mp (by omega)
        have herase : (bundle.erase x).count x = bundle.count x - 1 :=
          List.count_erase_self x bundle
        calc ((processExcludes (x :: rest) bundle).1).count x
            = ((processExcludes rest (bundle.erase x)).1).count x := by
              simp [processExcludes, hxb]
          _ = (bundle.erase x).count x :=
              processExcludes_count_of_not_mem x rest (bundle.erase x) hrest
          _ = bundle.count x - 1 := herase
      · have hrest : rest.count e = 1 := by
          rw [List.count_cons] at hc
          simp [hx] at hc
          omega
        by_cases hxb : x ∈ bundle
        · have hcnt : (bundle.erase x).count e = bundle.count e :=
            List.count_erase_of_ne (fun hEq => hx hEq.symm) bundle
          have := ih (bundle.erase x) hrest (by omega)
          simpa [processExcludes, hxb, hcnt] using this
        · simpa [processExcludes, hxb] using ih bundle hrest hb

/-- The fixpoint loop produces at most one stage per remaining technique:
each recorded stage fires (and thereby consumes) at least one of them. -/
theorem simLoop_stage_count (c : Catalog) :
    ∀ (n : Nat) (remaining pool : List String), remaining.length ≤ n →
      ((simLoop c remaining pool).1).length ≤ remaining.length := by
  intro n
  induction n with
  | zero =>
      intro remaining pool hlen
      have hrem : remaining = [] := List.length_eq_zero.mp (Nat.le_zero.mp hlen)
      subst hrem
      rw [simLoop]
      simp
  | succ n ih =>
      intro remaining pool hlen
      rw [simLoop]
      by_cases h : remaining.filter
          (fun t => (techRequires c t).all (fun p => decide (p ∈ pool))) = []
      · simp [h]
      · have hlt : (remaining.filter (fun t =>
            !((techRequires c t).all (fun p => decide (p ∈ pool))))).length
            < remaining.length := filter_not_length_lt h
        have hrec := ih (remaining.filter (fun t =>
            !((techRequires c t).all (fun p => decide (p ∈ pool)))))
          (pool ++ (((remaining.filter (fun t =>
              (techRequires c t).all (fun p => decide (p ∈ pool)))).flatMap
                (techProvides c)).dedup).filter (fun p => !(decide (p ∈ pool))))
          (by omega)
        simp only [dif_neg h, List.length_cons]
        exact le_trans (Nat.succ_le_succ hrec) hlt

/-! ## Claim theorems -/

/-- C1: for every input, the `simulate` fixpoint loop terminates (the loop
is embedded as `simLoop`, a total function defined by well-founded
recursion on the number of not-yet-fired bundle techniques, which is
exactly the spec's termination argument: no technique fires twice), and
the number of stages in the returned `Simulation` is at most the number of
distinct technique ids in `technique_bundle`. -/
theorem simulate_fixpoint_stage_bound (seeds technique_bundle : List String)
    (technique_catalog : Catalog) (system_conditions : List String)
    (sim : Simulation)
    (h : simulate seeds technique_bundle technique_catalog system_conditions
        = some sim) :
    sim.stages.length ≤ technique_bundle.dedup.length := by
  unfold simulate at h
  by_cases hall : technique_bundle.all
      (fun t => (technique_catalog t).isSome) = true
  · rw [if_pos hall] at h
    simp only [Option.some_inj] at h
    subst h
    exact simLoop_stage_count technique_catalog
      technique_bundle.dedup.length technique_bundle.dedup
      ((seeds ++ system_conditions).dedup) le_rfl
  · rw [if_neg hall] at h
    exact absurd h (by simp)

/-- C1 witness: `simulate` evaluated on a concrete two-technique run. -/
theorem simulate_fixpoint_stage_bound_witness :
    (⟨[⟨["T1"], [], ["a"]⟩,
       ⟨["T2"], ["a"], ["objective_exfiltration"]⟩],
      ["a", "objective_exfiltration"],
      ["objective_exfiltration"]⟩ : Simulation).stages.length
      ≤ (["T1", "T2"] : List String).dedup.length :=
  simulate_fixpoint_stage_bound [] ["T1", "T2"] exampleCatalog []
    ⟨[⟨["T1"], [], ["a"]⟩,
      ⟨["T2"], ["a"], ["objective_exfiltration"]⟩],
     ["a", "objective_exfiltration"], ["objective_exfiltration"]⟩
    (by
      unfold simulate
      rw [if_pos (by decide), simLoop]
      rw [dif_neg (by decide)]
      dsimp only
      rw [simLoop]
      rw [dif_neg (by decide)]
      dsimp only
      rw [simLoop]
      rw [dif_pos (by decide)]
      decide)

/-- C2: no technique id beginning with an underscore contributes anything
to the table built by `stages_table`: the result is unchanged if the
catalog is altered arbitrarily at underscore ids (they are skipped before
the catalog record is looked up), and unchanged if the underscore ids are
removed from every stage's fired set. -/
theorem stages_table_excludes_shadow_techniques (sim : Simulation)
    (c1 c2 : Catalog) (show_promises show_tactics : Bool)
    (h : ∀ id, pyStartsWith id "_" = false → c1 id = c2 id) :
    stages_table sim c1 show_promises show_tactics
      = stages_table sim c2 show_promises show_tactics ∧
    stages_table ⟨sim.stages.map dropShadow, sim.provided, sim.objectives⟩
        c1 show_promises show_tactics
      = stages_table sim c1 show_promises show_tactics := by
  constructor
  · unfold stages_table stagesTableRun
    simp [stagesRowsRun_congr c1 c2 show_promises show_tactics h]
  · unfold stages_table stagesTableRun
    simp [stagesRowsRun_fst_dropShadow]

/-- C2 witness: the concrete catalogs differing exactly at the shadow id
`"_sh"` render `exampleSim` identically. -/
theorem stages_table_excludes_shadow_techniques_witness :
    (stages_table exampleSim exampleCatalog true true
      = stages_table exampleSim exampleCatalogB true true) ∧
    (stages_table ⟨exampleSim.stages.map dropShadow, exampleSim.provided,
        exampleSim.objectives⟩ exampleCatalog true true
      = stages_table exampleSim exampleCatalog true true) :=
  stages_table_excludes_shadow_techniques exampleSim exampleCatalog
    exampleCatalogB true true
    (by
      intro id hid
      unfold exampleCatalogB
      by_cases h1 : id = "_sh"
      · rw [h1] at hid
        exact absurd hid (by decide)
      · rw [if_neg h1])

/-- C3 counterexample: a technique whose *name* already ends in `" [*]"`
yields a description that ends with the marker even though its provided
promise `"p"` is not in the pre-stage pool, so "ends with the marker iff
all provides are already in the pool" fails as stated. -/
theorem stage_technique_marker_endswith_cex :
    stage_technique ⟨"x [*]", [], none, some ["p"]⟩ [] false
      = some "x [*]" ∧
    pyEndsWith "x [*]" " [*]" = true ∧
    "p" ∉ ([] : List String) := by
  refine ⟨by decide, by decide, by decide⟩

/-- C3 (amended): for a record whose `provides` key is present, the
description returned by `stage_technique` is the base description with
`" [*]"` *appended* exactly when every promise in `provides` is already in
the pre-stage pool; otherwise it is the bare base description (which can
itself happen to end in `" [*]"`, hence the amendment from "ends with" to
"is appended"). -/
theorem stage_technique_marker_appended_iff (technique : TechRecord)
    (pool : List String) (show_tactics : Bool) (provs : List String)
    (h : technique.provides = some provs) :
    stage_technique technique pool show_tactics =
      some (if ∀ p ∈ provs, p ∈ pool then
              baseDescription technique show_tactics ++ " [*]"
            else baseDescription technique show_tactics) := by
  unfold stage_technique baseDescription
  rw [h]
  by_cases hall : ∀ p ∈ provs, p ∈ pool
  · have hb : provs.all (fun p => decide (p ∈ pool)) = true := by
      rw [List.all_eq_true]
      intro p hp
      exact decide_eq_true (hall p hp)
    rw [if_pos hall]
    simp [hb]
  · have hb : provs.all (fun p => decide (p ∈ pool)) = false := by
      rw [Bool.eq_false_iff]
      intro hAll
      rw [List.all_eq_true] at hAll
      exact hall (fun p hp => of_decide_eq_true (hAll p hp))
    rw [if_neg hall]
    simp [hb]

/-- C3 witness: the marker is appended on a concrete record whose only
provided promise is already pooled. -/
theorem stage_technique_marker_appended_iff_witness :
    stage_technique ⟨"N", ["t1"], none, some ["p"]⟩ ["p"] true =
      some (if ∀ p ∈ ["p"], p ∈ ["p"] then
              baseDescription ⟨"N", ["t1"], none, some ["p"]⟩ true ++ " [*]"
            else baseDescription ⟨"N", ["t1"], none, some ["p"]⟩ true) :=
  stage_technique_marker_appended_iff ⟨"N", ["t1"], none, some ["p"]⟩
    ["p"] true ["p"] rfl

/-- C4 counterexample: a run whose fired technique record has no
`provides` key — a record the catalog interface admits, see C8 — reaches
the end condition `"x"` in the final pool, yet `stages_table` raises
(`KeyError` on `technique["provides"]`) at the `print(stages_table(...))`
preceding the outcome check, aborting `main` there: neither outcome line
is printed even though `end_condition ∈ sim.provided`, refuting the
claim's unconditional "exactly one of the two lines is printed per
run". -/
theorem main_outcome_line_not_printed_cex :
    simulate [] ["T"] noProvidesCatalog ["x"] = some noProvidesSim ∧
    "x" ∈ noProvidesSim.provided ∧
    mainTail noProvidesSim noProvidesCatalog "x" false false = none := by
  refine ⟨?_, by decide, by decide⟩
  unfold simulate
  rw [if_pos (by decide), simLoop]
  rw [dif_neg (by decide)]
  dsimp only
  rw [simLoop]
  rw [dif_pos (by decide)]
  decide

/-- C4 (amended): whenever the tail of `main` after `simulate` completes
its prints (`stages_table` does not raise), the trace contains the line
beginning `"SUCCESS: Attack chain exited with end condition"` iff the end
condition is in the final pool `sim.provided`, contains the line beginning
`"FAIL: incomplete attack chain"` iff it is not, and never contains both:
exactly one outcome line in such a run.  A run in which `stages_table`
raises aborts before the outcome check and prints neither line. -/
theorem main_prints_exactly_one_outcome_line (sim : Simulation)
    (techniques : Catalog) (end_condition : String)
    (show_promises show_tactics : Bool) (out : List OutLine)
    (h : mainTail sim techniques end_condition show_promises show_tactics
        = some out) :
    ((OutLine.successLine end_condition ∈ out)
        ↔ end_condition ∈ sim.provided) ∧
    ((OutLine.failLine end_condition ∈ out)
        ↔ end_condition ∉ sim.provided) ∧
    ¬ (OutLine.successLine end_condition ∈ out ∧
        OutLine.failLine end_condition ∈ out) := by
  unfold mainTail at h
  cases ht : stages_table sim techniques show_promises show_tactics with
  | none => rw [ht] at h; exact absurd h (by simp)
  | some rows =>
      rw [ht] at h
      simp only [Option.some_inj] at h
      subst h
      by_cases hend : end_condition ∈ sim.provided
      · by_cases hobj : sim.objectives ≠ [] <;> simp [hend, hobj]
      · by_cases hobj : sim.objectives ≠ [] <;> simp [hend, hobj]

/-- C4 witness: a concrete run whose end condition is in the final pool
prints the success line and not the failure line. -/
theorem main_prints_exactly_one_outcome_line_witness :
    ((OutLine.successLine "x" ∈
        [OutLine.tableOut [], OutLine.noteNoNewPromises,
         OutLine.successLine "x"])
      ↔ "x" ∈ (⟨[], ["x"], []⟩ : Simulation).provided) ∧
    ((OutLine.failLine "x" ∈
        [OutLine.tableOut [], OutLine.noteNoNewPromises,
         OutLine.successLine "x"])
      ↔ "x" ∉ (⟨[], ["x"], []⟩ : Simulation).provided) ∧
    ¬ (OutLine.successLine "x" ∈
        [OutLine.tableOut [], OutLine.noteNoNewPromises,
         OutLine.successLine "x"] ∧
       OutLine.failLine "x" ∈
        [OutLine.tableOut [], OutLine.noteNoNewPromises,
         OutLine.successLine "x"]) :=
  main_prints_exactly_one_outcome_line ⟨[], ["x"], []⟩ exampleCatalog "x"
    false false
    [OutLine.tableOut [], OutLine.noteNoNewPromises, OutLine.successLine "x"]
    (by decide)

/-- C5: `stages_table` does not mutate the `Simulation` it consumes: the
state-passing embedding returns it unchanged, so the stage sequence and
every stage's `techniques`, `last_stage_sum_provides` and `new_provides`
are identical to their values before the call. -/
theorem stages_table_does_not_mutate_simulation (sim : Simulation)
    (techniques : Catalog) (show_promises show_tactics : Bool) :
    (stagesTableRun sim techniques show_promises show_tactics).2 = sim ∧
    (stagesTableRun sim techniques show_promises show_tactics).2.stages
      = sim.stages ∧
    (∀ i : Nat,
      ((stagesTableRun sim techniques show_promises
            show_tactics).2.stages[i]?.map AttackStage.techniques
        = sim.stages[i]?.map AttackStage.techniques) ∧
      ((stagesTableRun sim techniques show_promises
            show_tactics).2.stages[i]?.map AttackStage.last_stage_sum_provides
        = sim.stages[i]?.map AttackStage.last_stage_sum_provides) ∧
      ((stagesTableRun sim techniques show_promises
            show_tactics).2.stages[i]?.map AttackStage.new_provides
        = sim.stages[i]?.map AttackStage.new_provides)) := by
  have h2 : (stagesTableRun sim techniques show_promises show_tactics).2
      = sim := by
    unfold stagesTableRun
    simp [stagesRowsRun_stages_eq]
  exact ⟨h2, by rw [h2], fun i => ⟨by rw [h2], by rw [h2], by rw [h2]⟩⟩

/-- C6: an exclude entry not present in the bundle at the time it is
processed prints a warning naming the entry; the bundle is unchanged by
that entry and the remaining exclude entries are processed on that same
bundle. -/
theorem exclude_entry_missing_warns_and_continues (e : String)
    (rest bundle : List String) (h : e ∉ bundle) :
    processExcludes (e :: rest) bundle =
      ((processExcludes rest bundle).1,
        OutLine.excludeWarning e :: (processExcludes rest bundle).2) := by
  rw [processExcludes, if_neg h]

/-- C6 witness: excluding an id absent from a concrete bundle. -/
theorem exclude_entry_missing_warns_and_continues_witness :
    processExcludes ["X", "Y"] ["Z"] =
      ((processExcludes ["Y"] ["Z"]).1,
        OutLine.excludeWarning "X" :: (processExcludes ["Y"] ["Z"]).2) :=
  exclude_entry_missing_warns_and_continues "X" ["Y"] ["Z"] (by decide)

/-- C7: when `--technique-bundle` is absent, `main` writes
`"--technique-bundle must be specified\n"` to stderr and exits with status
1, and neither data loading nor the simulation is ever reached. -/
theorem missing_technique_bundle_exits_before_read (raw : RawArgs)
    (h : raw.technique_bundle = none) :
    mainSteps raw
      = [MainStep.stderrWrite "--technique-bundle must be specified\n",
         MainStep.exitCode 1] ∧
    MainStep.readData ∉ mainSteps raw ∧
    MainStep.simulateCall ∉ mainSteps raw := by
  unfold mainSteps command_line_arguments
  rw [h]
  refine ⟨rfl, ?_, ?_⟩ <;> simp

/-- C7 witness: a concrete argument vector with no bundle path. -/
theorem missing_technique_bundle_exits_before_read_witness :
    mainSteps ⟨none, [], "objective_exfiltration", [], [], false, false,
        false, []⟩
      = [MainStep.stderrWrite "--technique-bundle must be specified\n",
         MainStep.exitCode 1] ∧
    MainStep.readData ∉ mainSteps ⟨none, [], "objective_exfiltration", [],
        [], false, false, false, []⟩ ∧
    MainStep.simulateCall ∉ mainSteps ⟨none, [], "objective_exfiltration",
        [], [], false, false, false, []⟩ :=
  missing_technique_bundle_exits_before_read
    ⟨none, [], "objective_exfiltration", [], [], false, false, false, []⟩
    rfl

/-- C8 counterexample: a record with a name but no `provides` key makes
`stage_technique` raise `KeyError` (embedded as `none`) instead of
returning a description, because the code subscripts
`technique["provides"]` directly. -/
theorem stage_technique_missing_provides_cex :
    stage_technique ⟨"T", [], none, none⟩ [] false = none := rfl

/-- C8 (amended): `stage_technique` returns a description for every record
whose `provides` key is present (the claim's "may be absent" case is
exactly where it fails instead). -/
theorem stage_technique_some_of_provides_present (technique : TechRecord)
    (pool : List String) (show_tactics : Bool)
    (h : technique.provides.isSome = true) :
    (stage_technique technique pool show_tactics).isSome = true := by
  unfold stage_technique
  cases hp : technique.provides with
  | none => rw [hp] at h; simp at h
  | some provs =>
      by_cases hall : provs.all (fun p => decide (p ∈ pool)) <;> simp [hall]

/-- C8 witness: a concrete record with a `provides` key gets a
description. -/
theorem stage_technique_some_of_provides_present_witness :
    (stage_technique ⟨"N", [], none, some ["p"]⟩ ["q"] false).isSome
      = true :=
  stage_technique_some_of_provides_present ⟨"N", [], none, some ["p"]⟩
    ["q"] false rfl

/-- C9 counterexample: an id supplied via `--include-techniques` that also
appears in `--exclude-techniques` is *not* passed to `simulate`, so the
claim's unconditional "that id is passed to simulate" fails as stated
(here the id is also NOP-classified, yet it is the exclude entry, not the
NOP filter, that removes it). -/
theorem include_technique_not_passed_cex :
    ¬ ("X" ∈ (mainBundle ["X"] [] ["X"] ["X"]).1) := by decide

/-- C9 (amended): NOP removal happens strictly before the include entries
are appended, so an id supplied via `--include-techniques` is passed to
`simulate` for *every* NOP classification — even one naming the id —
provided no `--exclude-techniques` entry matches it. -/
theorem include_technique_passed_even_if_nop (nops tech_bundle
    include_techniques exclude_techniques : List String) (id : String)
    (hin : id ∈ include_techniques) (hex : id ∉ exclude_techniques) :
    id ∈ (mainBundle nops tech_bundle include_techniques
        exclude_techniques).1 := by
  unfold mainBundle
  have hne : include_techniques ≠ [] := by
    intro hEq
    rw [hEq] at hin
    exact List.not_mem_nil id hin
  simp only [hne, if_pos, ne_eq, not_false_iff]
  exact processExcludes_mem_of_not_mem id exclude_techniques _ hex
    (List.mem_append_right _ hin)

/-- C9 witness: a NOP-classified include id survives into the bundle
passed to `simulate`. -/
theorem include_technique_passed_even_if_nop_witness :
    "X" ∈ (mainBundle ["X"] ["B"] ["X"] ["Z"]).1 :=
  include_technique_passed_even_if_nop ["X"] ["B"] ["X"] ["Z"] "X"
    (by decide) (by decide)

/-- C10: when the bundle holds an id `n > 1` times at the time the exclude
loop runs and exactly one exclude entry matches it, the loop removes
exactly one occurrence — the first, as `list.remove` does — leaving `n - 1`
occurrences in the bundle passed to `simulate`. -/
theorem exclude_removes_single_occurrence (e : String)
    (excl bundle : List String) (n : Nat)
    (hc : excl.count e = 1) (hn : bundle.count e = n) (h1 : 1 < n) :
    ((processExcludes excl bundle).1).count e = n - 1 ∧
    (processExcludes [e] bundle).1 = bundle.erase e := by
  constructor
  · rw [← hn]
    exact processExcludes_count_of_one e excl bundle hc (by omega)
  · have hmem : e ∈ bundle := List.count_pos_iff.mp (by omega)
    simp [processExcludes, hmem]

/-- C10 witness: one exclude entry on a bundle holding the id twice. -/
theorem exclude_removes_single_occurrence_witness :
    ((processExcludes ["X"] ["X", "Y", "X"]).1).count "X" = 2 - 1 ∧
    (processExcludes ["X"] ["X", "Y", "X"]).1 = ["X", "Y", "X"].erase "X" :=
  exclude_removes_single_occurrence "X" ["X"] ["X", "Y", "X"] 2
    (by decide) (by decide) (by decide)
